import Mathlib

/-!
Shallow embedding of the resource-staking and exchange engine of the
`eosio.system` contract (eosio.contracts), together with proofs of the
specification's claims about it.

The repository ships the contract headers
(`src/contracts/eosio.system/include/eosio.system/eosio.system.hpp`):
table structures (`rex_pool`, `rex_balance`, `rex_loan`, `rex_order`,
`voter_info`), the inline helpers (`has_field`, `set_field`,
`rex_loans_available`, `rex_system_initialized`, `rex_available`) and the
action declarations with their documentation.  The action bodies
(`rex.cpp`, `voting.cpp`, `delegate_bandwidth.cpp`) are not part of the
sources; the corresponding operations below are modelled from the spec,
each such definition says so in its doc comment.

Asset amounts (`int64_t`) are modelled as unbounded `Int`; the claims
treated here are about exact integer accounting, not overflow.  Vote
weights (`double`) are modelled as exact rationals `ℚ`.  Times
(`time_point`, `time_point_sec`) are modelled as `Nat` counts of seconds.
-/

namespace EosioSystem

/-! ## Bit-field helpers (`has_field` / `set_field`)

Embedded from `eosio.system.hpp` lines 49-66.  The only enum the contract
instantiates them with is `voter_info::flags1_fields : uint32_t` with
enumerators `ram_managed = 1`, `net_managed = 2`, `cpu_managed = 4`
(lines 246-250); `flags` is the `uint32_t` field `voter_info::flags1`,
modelled as a `Nat` below `2^32`. -/

/-- `voter_info::flags1_fields` from `eosio.system.hpp` lines 246-250. -/
inductive flags1_fields where
  | ram_managed
  | net_managed
  | cpu_managed
deriving DecidableEq, Repr

/-- The `uint32_t` underlying value of each enumerator (`static_cast<F>(field)`). -/
def flags1_fields.val : flags1_fields → Nat
  | .ram_managed => 1
  | .net_managed => 2
  | .cpu_managed => 4

/-- `has_field( F flags, E field )` from `eosio.system.hpp` lines 49-55:
`(flags & static_cast<F>(field)) != 0`. -/
def has_field (flags : Nat) (field : flags1_fields) : Bool :=
  flags &&& field.val != 0

/-- `set_field( F flags, E field, bool value )` from `eosio.system.hpp`
lines 57-66: `flags | field` when `value`, else `flags & ~field`; the
complement `~` is taken at the 32-bit width of `uint32_t`. -/
def set_field (flags : Nat) (field : flags1_fields) (value : Bool) : Nat :=
  if value then flags ||| field.val
  else flags &&& (field.val ^^^ (2 ^ 32 - 1))

/-! ## REX pool

`rex_pool` table structure from `eosio.system.hpp` lines 291-302.
`version` (a serialization tag) is omitted; amounts are the `.amount`
fields of the assets. -/

/-- `rex_pool` from `eosio.system.hpp` lines 291-302. -/
structure rex_pool where
  total_lent : Int        -- total amount of CORE_SYMBOL in open rex_loans
  total_unlent : Int      -- total amount of CORE_SYMBOL available to be lent
  total_rent : Int        -- fees received in exchange for lent tokens
  total_lendable : Int    -- total_unlent + total_lent
  total_rex : Int         -- total number of REX shares
  namebid_proceeds : Int  -- CORE_SYMBOL to be transferred from namebids
  loan_num : Nat          -- increments with each new loan
deriving DecidableEq, Repr

/-- The pool conservation invariant stated in the spec (§3, §8):
`total_lendable == total_lent + total_unlent`. -/
def pool_conserved (p : rex_pool) : Prop :=
  p.total_lendable = p.total_lent + p.total_unlent

instance (p : rex_pool) : Decidable (pool_conserved p) := by
  unfold pool_conserved; infer_instance

/-- Modelled from the spec: the share count minted for a payment `P`
(`add_to_rex_pool`, declared in `eosio.system.hpp` line 960, body in the
missing `rex.cpp`).  Spec §4.1: if `total_rex == 0`, seed price 1:1
(`new_shares = P`); else `new_shares = P * total_rex / total_lendable`
(integer division; all quantities are nonnegative in reachable states, so
C++ truncation agrees with Lean's `Int` division). -/
def rex_shares_for_payment (p : rex_pool) (payment : Int) : Int :=
  if p.total_rex = 0 then payment
  else payment * p.total_rex / p.total_lendable

/-- Modelled from the spec: `add_to_rex_pool` (declared in
`eosio.system.hpp` line 960, body in the missing `rex.cpp`).  Spec §4.1:
on `total_rex == 0` the pool is seeded 1:1 (§8 scenario: `buy(1000)` on an
empty pool gives `total_rex == 1000`, `total_lendable == 1000`, and no
tokens are yet lent); otherwise `total_lendable += P`, `total_unlent += P`,
`total_rex += new_shares`.  Returns the updated pool and the minted
shares. -/
def add_to_rex_pool (p : rex_pool) (payment : Int) : rex_pool × Int :=
  if p.total_rex = 0 then
    ({ p with total_lent := 0
              total_unlent := payment
              total_lendable := payment
              total_rex := payment }, payment)
  else
    let shares := payment * p.total_rex / p.total_lendable
    ({ p with total_lendable := p.total_lendable + payment
              total_unlent := p.total_unlent + payment
              total_rex := p.total_rex + shares }, shares)

/-- Modelled from the spec (§4.1): proceeds of selling `S` REX shares,
`proceeds = S * total_lendable / total_rex` (integer division). -/
def sell_proceeds (p : rex_pool) (S : Int) : Int :=
  S * p.total_lendable / p.total_rex

/-- Modelled from the spec (§4.1): the pool mutation of a successful sale
of `S` shares: `total_rex -= S`, `total_lendable -= proceeds`,
`total_unlent -= proceeds`. -/
def apply_sell (p : rex_pool) (S : Int) : rex_pool :=
  let pr := sell_proceeds p S
  { p with total_rex := p.total_rex - S
           total_lendable := p.total_lendable - pr
           total_unlent := p.total_unlent - pr }

/-- Modelled from the spec: `channel_to_rex` (declared in
`eosio.system.hpp` line 945, body in the missing `rex.cpp`), the pool
inflow of loan-fee settlements and namebid proceeds: `total_lendable`
and `total_unlent` both increase by `amount`, no shares are minted
(spec §4.1, yield mechanism). -/
def channel_to_rex (p : rex_pool) (amount : Int) : rex_pool :=
  { p with total_lendable := p.total_lendable + amount
           total_unlent := p.total_unlent + amount }

/-- Modelled from the spec (§4.2): the pool mutation of creating a loan:
the rented tokens move from `total_unlent` to `total_lent`, the rent fee
is added to the `total_rent` connector, and the loan counter increments.
(`rent_rex`, declared in `eosio.system.hpp` line 948, body in the missing
`rex.cpp`.) -/
def apply_rent (p : rex_pool) (payment rented_tokens : Int) : rex_pool :=
  { p with total_unlent := p.total_unlent - rented_tokens
           total_lent := p.total_lent + rented_tokens
           total_rent := p.total_rent + payment
           loan_num := p.loan_num + 1 }

/-- The pool-touching operations of the spec's conservation property
(§8): buy, sell, rent, loan-fee or namebid inflow. -/
inductive rex_op where
  | buy (payment : Int)
  | sell (S : Int)
  | rent (payment rented_tokens : Int)
  | channel (amount : Int)
deriving DecidableEq, Repr

/-- Modelled from the spec: one pool operation.  An operation whose guard
fails (a sale the pool cannot cover, which is queued instead — spec §4.1,
§7 — or a rent exceeding `total_unlent`, which aborts the transaction)
leaves the pool unchanged. -/
def apply_rex_op (p : rex_pool) : rex_op → rex_pool
  | .buy payment => (add_to_rex_pool p payment).1
  | .sell S =>
      if sell_proceeds p S ≤ p.total_unlent then apply_sell p S else p
  | .rent payment rented_tokens =>
      if rented_tokens ≤ p.total_unlent then apply_rent p payment rented_tokens else p
  | .channel amount => channel_to_rex p amount

/-- A concrete pool used to instantiate theorems: 100 tokens lendable,
all of it unlent, 100 REX shares outstanding. -/
def pool0 : rex_pool :=
  { total_lent := 0, total_unlent := 100, total_rent := 10
    total_lendable := 100, total_rex := 100, namebid_proceeds := 0, loan_num := 0 }

/-- Step lemma for claim C1: every single pool operation preserves
`total_lendable == total_lent + total_unlent`. -/
theorem apply_rex_op_conserved (p : rex_pool) (op : rex_op)
    (h : pool_conserved p) : pool_conserved (apply_rex_op p op) := by
  cases op with
  | buy payment =>
      unfold apply_rex_op add_to_rex_pool
      by_cases h0 : p.total_rex = 0 <;>
        simp only [h0, if_true, if_false, reduceIte] <;>
        simp only [pool_conserved] at h ⊢ <;> omega
  | sell S =>
      unfold apply_rex_op
      by_cases hs : sell_proceeds p S ≤ p.total_unlent <;>
        simp only [hs, if_true, if_false, reduceIte] <;>
        first
          | exact h
          | (simp only [apply_sell, pool_conserved] at h ⊢; omega)
  | rent payment rented_tokens =>
      unfold apply_rex_op
      by_cases hr : rented_tokens ≤ p.total_unlent <;>
        simp only [hr, if_true, if_false, reduceIte] <;>
        first
          | exact h
          | (simp only [apply_rent, pool_conserved] at h ⊢; omega)
  | channel amount =>
      simp only [apply_rex_op, channel_to_rex, pool_conserved] at h ⊢; omega

/-- C1: For every sequence of REX pool operations (buy, sell, rent,
loan-fee or namebid inflow), the pool invariant
`total_lendable == total_lent + total_unlent` holds after each operation,
for every reachable pool state (every state obtained from a conserved
state by a sequence of operations). -/
theorem rex_pool_conservation (ops : List rex_op) (p : rex_pool)
    (h : pool_conserved p) : pool_conserved (List.foldl apply_rex_op p ops) := by
  induction ops generalizing p with
  | nil => exact h
  | cons op ops ih => exact ih _ (apply_rex_op_conserved p op h)

/-- Witness for C1 at a concrete state and operation sequence. -/
theorem rex_pool_conservation_witness :
    pool_conserved (List.foldl apply_rex_op pool0
      [rex_op.buy 50, rex_op.rent 3 40, rex_op.channel 3,
       rex_op.sell 25, rex_op.buy 0, rex_op.sell 1000000]) :=
  rex_pool_conservation _ pool0 (by decide)

/-- C3: buying REX with amount `A` and then immediately selling all the
resulting shares (no other pool mutation in between) yields
`proceeds ≤ A`: the truncating share-price division never lets the user
extract more than was deposited.  The hypotheses say `A` is a valid
payment and the pool is well formed (share count nonnegative, and a pool
holding shares has positive lendable value). -/
theorem rex_buy_sell_no_value_creation (p : rex_pool) (A : Int)
    (hA : 0 ≤ A) (hR : 0 ≤ p.total_rex)
    (hL : 0 < p.total_rex → 0 < p.total_lendable) :
    sell_proceeds (add_to_rex_pool p A).1 (add_to_rex_pool p A).2 ≤ A := by
  by_cases h0 : p.total_rex = 0
  · simp only [add_to_rex_pool, h0, if_true, reduceIte, sell_proceeds]
    rcases eq_or_lt_of_le hA with hA0 | hA0
    · simp [← hA0]
    · rw [Int.mul_ediv_cancel_left _ (ne_of_gt hA0)]
  · have hRpos : 0 < p.total_rex := lt_of_le_of_ne hR (Ne.symm h0)
    have hLpos : 0 < p.total_lendable := hL hRpos
    simp only [add_to_rex_pool, h0, if_false, reduceIte, sell_proceeds]
    set L := p.total_lendable with hLdef
    set R := p.total_rex with hRdef
    set s := A * R / L with hsdef
    have hs0 : 0 ≤ s := Int.ediv_nonneg (mul_nonneg hA hR) hLpos.le
    have key : s * L ≤ A * R := Int.ediv_mul_le (A * R) (ne_of_gt hLpos)
    have hRs : 0 < R + s := by omega
    have h2 : s * (L + A) ≤ A * (R + s) := by nlinarith
    calc s * (L + A) / (R + s) ≤ A * (R + s) / (R + s) :=
          Int.ediv_le_ediv hRs h2
      _ = A := Int.mul_ediv_cancel _ (ne_of_gt hRs)

/-- Witness for C3 at a concrete pool and amount. -/
theorem rex_buy_sell_no_value_creation_witness :
    sell_proceeds (add_to_rex_pool pool0 7).1 (add_to_rex_pool pool0 7).2 ≤ 7 :=
  rex_buy_sell_no_value_creation pool0 7 (by decide) (by decide) (by decide)

/-- Each declared flag field is a single bit below the `uint32_t` width. -/
theorem flags1_fields_val_pow (field : flags1_fields) :
    ∃ k, k < 32 ∧ field.val = 2 ^ k := by
  cases field
  · exact ⟨0, by norm_num, rfl⟩
  · exact ⟨1, by norm_num, rfl⟩
  · exact ⟨2, by norm_num, rfl⟩

/-- C10: for every `uint32_t` flags value, every flag field and every
boolean `v`: `has_field (set_field flags field v) field = v`, and
`set_field flags field v` leaves every bit outside the field's mask
unchanged, so setting one flag never perturbs another. -/
theorem set_field_has_field (flags : Nat) (field : flags1_fields) (v : Bool)
    (hflags : flags < 2 ^ 32) :
    has_field (set_field flags field v) field = v ∧
    ∀ i, Nat.testBit field.val i = false →
      Nat.testBit (set_field flags field v) i = Nat.testBit flags i := by
  obtain ⟨k, hk, hm⟩ := flags1_fields_val_pow field
  unfold has_field set_field
  rw [hm]
  cases v with
  | true =>
      rw [if_pos rfl]
      constructor
      · simp only [bne_iff_ne, ne_eq]
        intro heq
        have hbit := congrArg (fun n => Nat.testBit n k) heq
        simp [Nat.testBit_and, Nat.testBit_or, Nat.testBit_two_pow] at hbit
      · intro i hi
        simp [Nat.testBit_or, hi]
  | false =>
      rw [if_neg (by decide)]
      constructor
      · have hzero : (flags &&& (2 ^ k ^^^ (2 ^ 32 - 1))) &&& 2 ^ k = 0 := by
          apply Nat.eq_of_testBit_eq
          intro i
          simp only [Nat.testBit_and, Nat.testBit_xor, Nat.testBit_two_pow,
            Nat.testBit_two_pow_sub_one, Nat.zero_testBit]
          by_cases hik : k = i
          · simp [hik, show i < 32 by omega]
          · simp [hik]
        norm_num at hzero ⊢
        simp [hzero]
      · intro i hi
        simp only [Nat.testBit_and, Nat.testBit_xor, hi,
          Nat.testBit_two_pow_sub_one, Bool.false_xor]
        by_cases hi32 : i < 32
        · simp [hi32]
        · have hfb : Nat.testBit flags i = false := by
            apply Nat.testBit_eq_false_of_lt
            calc flags < 2 ^ 32 := hflags
              _ ≤ 2 ^ i := Nat.pow_le_pow_right (by norm_num) (by omega)
          simp [hfb]

/-- Witness for C10: setting `net_managed` on flags value 5 makes
`has_field` report it, and leaves bit 0 (the `ram_managed` bit) as it
was. -/
theorem set_field_has_field_witness :
    has_field (set_field 5 flags1_fields.net_managed true) flags1_fields.net_managed = true ∧
    Nat.testBit (set_field 5 flags1_fields.net_managed true) 0 = Nat.testBit 5 0 :=
  ⟨(set_field_has_field 5 flags1_fields.net_managed true (by norm_num)).1,
   (set_field_has_field 5 flags1_fields.net_managed true (by norm_num)).2 0 (by decide)⟩

/-! ## Sell orders, the order queue and loan availability -/

/-- `rex_order` from `eosio.system.hpp` lines 354-366.  Account names are
modelled by their `uint64_t` `value`. -/
structure rex_order where
  owner : Nat
  rex_requested : Int
  proceeds : Int
  stake_change : Int
  order_time : Nat
  is_open : Bool
deriving DecidableEq, Repr

/-- `rex_order::by_time` from `eosio.system.hpp` line 365: the `bytime`
secondary key sorts open orders by `order_time` and pushes closed ones to
`uint64_t` max. -/
def rex_order.by_time (o : rex_order) : Nat :=
  if o.is_open then o.order_time else 2 ^ 64 - 1

/-- The spec's error taxonomy (§7). -/
inductive rex_error where
  | invalid_amount
  | insufficient_balance
  | insufficient_liquidity
  | precondition_failed
deriving DecidableEq, Repr

/-- Outcome of a `sellrex` request. -/
inductive sellrex_outcome where
  | filled (pool : rex_pool) (proceeds : Int)
  | queued (order : rex_order)
deriving DecidableEq, Repr

/-- Modelled from the spec: `sellrex` (declared in `eosio.system.hpp`
lines 540-546, body in the missing `rex.cpp`).  Spec §4.1/§7: if the
proceeds fit in `total_unlent` the sale executes against the pool;
otherwise the request degrades to queueing an open sell order stamped
with the current time — not an error. -/
def sellrex (p : rex_pool) (now owner : Nat) (S : Int) : sellrex_outcome :=
  let pr := sell_proceeds p S
  if pr ≤ p.total_unlent then
    .filled (apply_sell p S) pr
  else
    .queued { owner := owner, rex_requested := S, proceeds := pr,
              stake_change := pr, order_time := now, is_open := true }

/-- The contract state read by the inline helpers of `eosio.system.hpp`:
the `rexpool` singleton table (`none` before the pool is initialized) and
the `rexqueue` table of sell orders. -/
structure rex_state where
  rexpool : Option rex_pool
  rexorders : List rex_order
deriving DecidableEq, Repr

/-- `rex_system_initialized` from `eosio.system.hpp` line 956:
`_rexpool.begin() != _rexpool.end()`. -/
def rex_system_initialized (s : rex_state) : Bool :=
  s.rexpool.isSome

/-- `rex_available` from `eosio.system.hpp` line 957:
`rex_system_initialized() && _rexpool.begin()->total_rex.amount > 0`. -/
def rex_available (s : rex_state) : Bool :=
  rex_system_initialized s &&
    (match s.rexpool with
     | some p => decide (p.total_rex > 0)
     | none => false)

/-- `rex_loans_available` from `eosio.system.hpp` line 955:
`_rexorders.begin() == _rexorders.end() && rex_available()`. -/
def rex_loans_available (s : rex_state) : Bool :=
  s.rexorders.isEmpty && rex_available s

/-- Modelled from the spec: `rent_rex` (declared in `eosio.system.hpp`
line 948, body in the missing `rex.cpp`).  Renting is gated by
`rex_loans_available` and fails hard — §7 InsufficientLiquidity — when
loans are unavailable or the rented tokens exceed `total_unlent`; on
success the pool mutates by `apply_rent`.  The market pricing of
`rented_tokens` from `payment` (the `total_rent` connector) is not
specified by the claims; the market-determined token amount is passed
in. -/
def rent_rex (s : rex_state) (payment rented_tokens : Int) :
    Except rex_error rex_state :=
  if ¬ rex_loans_available s then .error .insufficient_liquidity
  else
    match s.rexpool with
    | none => .error .insufficient_liquidity
    | some p =>
        if p.total_unlent < rented_tokens then .error .insufficient_liquidity
        else .ok { s with rexpool := some (apply_rent p payment rented_tokens) }

/-- Modelled from the spec: the sell-order queue walk of `runrex`
(declared in `eosio.system.hpp` line 939, body in the missing `rex.cpp`).
Spec §4.3: orders arrive in ascending `order_time` (the `bytime` index);
each is filled fully or not at all while `total_unlent` permits the
proceeds; processing stops at the first order that cannot be filled.
Returns the final pool, the filled orders, and the orders left open. -/
def process_sell_queue : rex_pool → List rex_order → rex_pool × List rex_order × List rex_order
  | p, [] => (p, [], [])
  | p, o :: os =>
      if sell_proceeds p o.rex_requested ≤ p.total_unlent then
        let r := process_sell_queue (apply_sell p o.rex_requested) os
        (r.1, o :: r.2.1, r.2.2)
      else (p, [], o :: os)

/-- Queue processing never reorders: the filled orders are a front
segment of the time-ordered queue and the open remainder follows it. -/
theorem process_sell_queue_split (p : rex_pool) (q : List rex_order) :
    (process_sell_queue p q).2.1 ++ (process_sell_queue p q).2.2 = q := by
  induction q generalizing p with
  | nil => rfl
  | cons o os ih =>
      unfold process_sell_queue
      by_cases h : sell_proceeds p o.rex_requested ≤ p.total_unlent
      · simpa [h] using ih (apply_sell p o.rex_requested)
      · simp [h]

/-- A pool with most of its value lent out, used to instantiate the
liquidity theorems: 100 lendable of which only 20 unlent. -/
def pool1 : rex_pool :=
  { total_lent := 80, total_unlent := 20, total_rent := 10
    total_lendable := 100, total_rex := 100, namebid_proceeds := 0, loan_num := 3 }

/-- C4: when the pool cannot immediately honor a sale (the proceeds
would exceed `total_unlent`), `sellrex` does not fail: it queues an open
sell order stamped with the request time; whereas renting under
insufficient liquidity (rented tokens exceeding `total_unlent`) fails
hard with InsufficientLiquidity. -/
theorem sellrex_queues_rent_hard_fails (p : rex_pool) (now owner : Nat) (S : Int)
    (orders : List rex_order)
    (hq : p.total_unlent < sell_proceeds p S) :
    sellrex p now owner S = sellrex_outcome.queued
      { owner := owner, rex_requested := S, proceeds := sell_proceeds p S,
        stake_change := sell_proceeds p S, order_time := now, is_open := true } ∧
    ∀ payment rented_tokens, p.total_unlent < rented_tokens →
      rent_rex ⟨some p, orders⟩ payment rented_tokens =
        Except.error rex_error.insufficient_liquidity := by
  constructor
  · simp [sellrex, not_le.mpr hq]
  · intro payment rented_tokens hr
    unfold rent_rex
    by_cases hgate : rex_loans_available ⟨some p, orders⟩
    · simp [hgate, not_le.mpr hr]
    · simp [hgate]

/-- Witness for C4: on `pool1` (20 unlent), selling 50 REX (proceeds 50)
queues, renting 30 tokens errors. -/
theorem sellrex_queues_rent_hard_fails_witness :
    sellrex pool1 7 42 50 = sellrex_outcome.queued
      { owner := 42, rex_requested := 50, proceeds := sell_proceeds pool1 50,
        stake_change := sell_proceeds pool1 50, order_time := 7, is_open := true } ∧
    rent_rex ⟨some pool1, []⟩ 3 30 = Except.error rex_error.insufficient_liquidity :=
  ⟨(sellrex_queues_rent_hard_fails pool1 7 42 50 [] (by decide)).1,
   (sellrex_queues_rent_hard_fails pool1 7 42 50 [] (by decide)).2 3 30 (by decide)⟩

/-- C5: queued sell orders are processed strictly FIFO.  For orders `o1`
at time `t1` and `o2` at time `t2 > t1`, when the pool can fill `o1` but
the pool left after filling `o1` cannot fill `o2`, processing fills `o1`
and leaves `o2` open; and in general the filled orders are a front
segment of the time-ordered queue (processing stops at the first order
that cannot be filled, so a later order never fills before an earlier
still-open one). -/
theorem rex_order_fifo (p : rex_pool) (o1 o2 : rex_order)
    (ht : o1.order_time < o2.order_time)
    (h1 : sell_proceeds p o1.rex_requested ≤ p.total_unlent)
    (h2 : (apply_sell p o1.rex_requested).total_unlent <
          sell_proceeds (apply_sell p o1.rex_requested) o2.rex_requested) :
    process_sell_queue p [o1, o2] =
      (apply_sell p o1.rex_requested, [o1], [o2]) ∧
    ∀ (q : List rex_order) (p' : rex_pool),
      (process_sell_queue p' q).2.1 ++ (process_sell_queue p' q).2.2 = q := by
  constructor
  · unfold process_sell_queue
    simp [h1, not_le.mpr h2, process_sell_queue]
  · intro q p'
    exact process_sell_queue_split p' q

/-- Witness for C5: on `pool1` (20 unlent), an order for 15 REX at time 1
fills (proceeds 15), after which only 5 tokens remain unlent and an order
for 10 REX at time 2 stays open. -/
theorem rex_order_fifo_witness :
    process_sell_queue pool1
      [{ owner := 1, rex_requested := 15, proceeds := 0, stake_change := 0,
         order_time := 1, is_open := true },
       { owner := 2, rex_requested := 10, proceeds := 0, stake_change := 0,
         order_time := 2, is_open := true }] =
      (apply_sell pool1 15,
       [{ owner := 1, rex_requested := 15, proceeds := 0, stake_change := 0,
          order_time := 1, is_open := true }],
       [{ owner := 2, rex_requested := 10, proceeds := 0, stake_change := 0,
          order_time := 2, is_open := true }]) :=
  (rex_order_fifo pool1 _ _ (by decide) (by decide) (by decide)).1

/-- A state whose sell-order queue holds one open order, used to
instantiate the loan-availability theorem. -/
def state1 : rex_state :=
  { rexpool := some pool1
    rexorders := [{ owner := 9, rex_requested := 500, proceeds := 500,
                    stake_change := 500, order_time := 5, is_open := true }] }

/-- C9: `rex_loans_available` returns true if and only if the sell-order
queue is empty and the pool is initialized with `total_rex > 0`; and with
at least one queued sell order no new loan can be created — `rent_rex`
fails — even when `total_unlent` would cover it. -/
theorem rex_loans_available_spec (s : rex_state) :
    (rex_loans_available s = true ↔
       s.rexorders = [] ∧ ∃ p, s.rexpool = some p ∧ 0 < p.total_rex) ∧
    (s.rexorders ≠ [] → ∀ payment rented_tokens,
       rent_rex s payment rented_tokens =
         Except.error rex_error.insufficient_liquidity) := by
  constructor
  · unfold rex_loans_available rex_available rex_system_initialized
    cases hp : s.rexpool with
    | none => simp [hp, List.isEmpty_iff]
    | some p => simp [hp, List.isEmpty_iff]
  · intro hne payment rented_tokens
    have hgate : rex_loans_available s = false := by
      unfold rex_loans_available
      simp [List.isEmpty_iff, hne]
    simp [rent_rex, hgate]

/-- Witness for C9: in `state1` (one queued order, 20 tokens unlent) a
rent of 10 tokens fails even though `total_unlent` covers it. -/
theorem rex_loans_available_spec_witness :
    rent_rex state1 5 10 = Except.error rex_error.insufficient_liquidity :=
  (rex_loans_available_spec state1).2 (by decide) 5 10

/-! ## REX loans -/

/-- `seconds_per_day` from `eosio.system.hpp` line 289. -/
def seconds_per_day : Nat := 24 * 3600

/-- The fixed 30-day loan term (spec §4.2), in seconds. -/
def loan_term : Nat := 30 * seconds_per_day

/-- `rex_loan` from `eosio.system.hpp` lines 329-342.  The C++ field
`from` is a Lean keyword and is rendered `from_account`; `expiration` is
in seconds. -/
structure rex_loan where
  from_account : Nat
  receiver : Nat
  payment : Int
  balance : Int
  total_staked : Int
  loan_num : Nat
  expiration : Nat
deriving DecidableEq, Repr

/-- Outcome of evaluating an expired loan: renewal with the updated
record, or closure refunding the remaining balance to the owner's REX
fund. -/
inductive loan_outcome where
  | renewed (loan : rex_loan)
  | closed (refund : Int)
deriving DecidableEq, Repr

/-- Modelled from the spec: the renewal/expiration evaluation performed
on a loan past its `expiration` (part of `runrex` in the missing
`rex.cpp`; documented at `rentcpu`, `eosio.system.hpp` lines 554-565, and
spec §4.2).  `current_payment` is the recomputed amount needed to re-rent
at the then-current market price.  If `balance` covers it, the loan
renews: `payment` is recomputed, subtracted from `balance`, and
`expiration` is extended by 30 days; otherwise the loan closes and the
remaining `balance` is refunded. -/
def process_expired_loan (current_payment : Int) (l : rex_loan) : loan_outcome :=
  if current_payment ≤ l.balance then
    .renewed { l with payment := current_payment
                      balance := l.balance - current_payment
                      expiration := l.expiration + loan_term }
  else .closed l.balance

/-- Iterated renewal of one loan over the sequence of market prices met
at its successive expirations; `none` means the loan closed. -/
def run_loan : rex_loan → List Int → Option rex_loan
  | l, [] => some l
  | l, c :: cs =>
      match process_expired_loan c l with
      | .renewed l' => run_loan l' cs
      | .closed _ => none

/-- `always_covered b cs` says a balance of `b` covers every successive
renewal payment in `cs`. -/
def always_covered : Int → List Int → Bool
  | _, [] => true
  | b, c :: cs => decide (c ≤ b) && always_covered (b - c) cs

/-- A loan whose balance covers every successive payment runs through
the whole price sequence without closing, gaining 30 days of expiration
per renewal and paying out the sum of the prices. -/
theorem run_loan_covered (cs : List Int) : ∀ l : rex_loan,
    always_covered l.balance cs = true →
    ∃ l', run_loan l cs = some l' ∧
      l'.expiration = l.expiration + cs.length * loan_term ∧
      l'.balance = l.balance - cs.sum := by
  induction cs with
  | nil => exact fun l _ => ⟨l, rfl, by simp, by simp⟩
  | cons c cs ih =>
      intro l hcov
      simp only [always_covered, Bool.and_eq_true, decide_eq_true_eq] at hcov
      obtain ⟨hc, hrest⟩ := hcov
      obtain ⟨l', hrun, hexp, hbal⟩ := ih
        { l with payment := c, balance := l.balance - c,
                 expiration := l.expiration + loan_term } hrest
      refine ⟨l', ?_, ?_, ?_⟩
      · simp [run_loan, process_expired_loan, hc, hrun]
      · simp only [List.length_cons] at hexp ⊢
        simp only [hexp]; ring
      · simp only [List.sum_cons] at hbal ⊢
        simp only [hbal]; omega

/-- C2: a loan whose balance always covers the recomputed payment renews
at each expiration — payment recomputed at the then-current price,
subtracted from the balance, expiration extended 30 days — and never
reaches the Closed state; a loan whose balance falls short of the
recomputed payment (e.g. funded with exactly `payment - 1`) closes and
refunds exactly its remaining balance. -/
theorem rex_loan_renewal (l : rex_loan) (cs : List Int)
    (hcov : always_covered l.balance cs = true) :
    (∀ c, c ≤ l.balance →
       process_expired_loan c l = loan_outcome.renewed
         { l with payment := c, balance := l.balance - c,
                  expiration := l.expiration + loan_term }) ∧
    (∃ l', run_loan l cs = some l' ∧
       l'.expiration = l.expiration + cs.length * loan_term ∧
       l'.balance = l.balance - cs.sum) ∧
    (∀ c, l.balance < c → process_expired_loan c l = loan_outcome.closed l.balance) := by
  refine ⟨?_, ?_, ?_⟩
  · intro c hc
    simp [process_expired_loan, hc]
  · exact run_loan_covered cs l hcov
  · intro c hc
    simp [process_expired_loan, not_le.mpr hc]

/-- A concrete loan used to instantiate the renewal theorem. -/
def loan0 : rex_loan :=
  { from_account := 1, receiver := 2, payment := 10, balance := 65
    total_staked := 100, loan_num := 1, expiration := 1000 }

/-- Witness for C2: `loan0` (balance 65) survives renewal prices
10, 20, 30 and gains three 30-day terms; any price above 65 closes it
with a refund of exactly 65. -/
theorem rex_loan_renewal_witness :
    (∀ c, c ≤ loan0.balance →
       process_expired_loan c loan0 = loan_outcome.renewed
         { loan0 with payment := c, balance := loan0.balance - c,
                      expiration := loan0.expiration + loan_term }) ∧
    (∃ l', run_loan loan0 [10, 20, 30] = some l' ∧
       l'.expiration = loan0.expiration + [(10 : Int), 20, 30].length * loan_term ∧
       l'.balance = loan0.balance - [(10 : Int), 20, 30].sum) ∧
    (∀ c, loan0.balance < c →
       process_expired_loan c loan0 = loan_outcome.closed loan0.balance) :=
  rex_loan_renewal loan0 [10, 20, 30] (by decide)

/-! ## REX balances and maturity buckets -/

/-- `rex_balance` from `eosio.system.hpp` lines 316-325.  The
`rex_maturities` deque holds `(time_point_sec, int64_t)` maturity
buckets, modelled as a list of `(seconds, amount)` pairs; `rex_balance`
is the amount field of the REX asset. -/
structure rex_balance where
  owner : Nat
  vote_stake : Int
  rex_balance : Int
  matured_rex : Int
  rex_maturities : List (Nat × Int)
deriving DecidableEq, Repr

/-- The invariant of spec §3: `matured_rex` plus the amounts in the
maturity buckets equals the REX balance. -/
def rex_balance_conserved (b : rex_balance) : Prop :=
  b.matured_rex + (b.rex_maturities.map Prod.snd).sum = b.rex_balance

instance (b : rex_balance) : Decidable (rex_balance_conserved b) := by
  unfold rex_balance_conserved; infer_instance

/-- Modelled from the spec: `get_rex_maturity` (declared in
`eosio.system.hpp` line 958, body in the missing `rex.cpp`): the day a
freshly bought bucket becomes sellable, 4 days from the end of today
(doc of `mvfrsavings`, hpp lines 615-620; spec §3). -/
def get_rex_maturity (now : Nat) : Nat :=
  (now / seconds_per_day + 5) * seconds_per_day

/-- The synthetic savings bucket key: the maximal `time_point_sec`
(spec §3, "a synthetic savings bucket (day = max)"). -/
def rex_savings_day : Nat := 2 ^ 32 - 1

/-- Modelled from the spec: adding an amount to the bucket keyed `day`,
merging with the trailing bucket when the key matches (the deque keeps
one bucket per day, appended in key order). -/
def add_bucket : List (Nat × Int) → Nat → Int → List (Nat × Int)
  | [], day, R => [(day, R)]
  | [(d, a)], day, R => if d = day then [(d, a + R)] else [(d, a), (day, R)]
  | m :: ms, day, R => m :: add_bucket ms day R

/-- `add_bucket` adds exactly `R` to the total bucketed amount. -/
theorem add_bucket_sum (ms : List (Nat × Int)) (day : Nat) (R : Int) :
    ((add_bucket ms day R).map Prod.snd).sum = (ms.map Prod.snd).sum + R := by
  induction ms with
  | nil => simp [add_bucket]
  | cons m ms ih =>
      cases ms with
      | nil =>
          obtain ⟨d, a⟩ := m
          by_cases h : d = day <;> simp [add_bucket, h]
      | cons m2 ms2 =>
          simp only [add_bucket, List.map_cons, List.sum_cons, ih]
          ring

/-- Splitting a bucket list at a maturity date splits its total. -/
theorem maturity_sum_split (now : Nat) (ms : List (Nat × Int)) :
    ((ms.filter fun m => decide (m.1 ≤ now)).map Prod.snd).sum +
      ((ms.filter fun m => ! decide (m.1 ≤ now)).map Prod.snd).sum =
      (ms.map Prod.snd).sum := by
  induction ms with
  | nil => simp
  | cons m ms ih =>
      by_cases h : m.1 ≤ now <;> simp [List.filter_cons, h] <;> omega

/-- Splitting a bucket list into savings and non-savings buckets splits
its total. -/
theorem savings_sum_split (ms : List (Nat × Int)) :
    ((ms.filter fun m => decide (m.1 = rex_savings_day)).map Prod.snd).sum +
      ((ms.filter fun m => ! decide (m.1 = rex_savings_day)).map Prod.snd).sum =
      (ms.map Prod.snd).sum := by
  induction ms with
  | nil => simp
  | cons m ms ih =>
      by_cases h : m.1 = rex_savings_day <;> simp [List.filter_cons, h] <;> omega

/-- Modelled from the spec: `add_to_rex_balance` (declared in
`eosio.system.hpp` line 959, body in the missing `rex.cpp`): bought REX
is added to the balance and to the bucket maturing 4 days from the end
of today (spec §3). -/
def add_to_rex_balance (now : Nat) (R : Int) (b : rex_balance) : rex_balance :=
  { b with rex_balance := b.rex_balance + R
           rex_maturities := add_bucket b.rex_maturities (get_rex_maturity now) R }

/-- Modelled from the spec: `process_rex_maturities` (declared in
`eosio.system.hpp` line 961, body in the missing `rex.cpp`): buckets
whose due day has passed are folded into `matured_rex` lazily on access
(spec §3 and design note `consolidate(buckets, today)`). -/
def process_rex_maturities (now : Nat) (b : rex_balance) : rex_balance :=
  { b with matured_rex := b.matured_rex +
             ((b.rex_maturities.filter fun m => decide (m.1 ≤ now)).map Prod.snd).sum
           rex_maturities := b.rex_maturities.filter fun m => ! decide (m.1 ≤ now) }

/-- Modelled from the spec: the REX-balance side of a filled sale
(`fill_rex_order`, declared in `eosio.system.hpp` line 943, body in the
missing `rex.cpp`): sold REX leaves `matured_rex` and the balance; only
matured REX may be sold, an uncovered request leaves the record
unchanged (the transaction aborts). -/
def sell_from_balance (S : Int) (b : rex_balance) : rex_balance :=
  if S ≤ b.matured_rex then
    { b with matured_rex := b.matured_rex - S
             rex_balance := b.rex_balance - S }
  else b

/-- The amount currently held in the savings bucket. -/
def savings_amount (b : rex_balance) : Int :=
  ((b.rex_maturities.filter fun m => decide (m.1 = rex_savings_day)).map Prod.snd).sum

/-- Modelled from the spec: `mvtosavings` (`eosio.system.hpp` lines
606-613, body in the missing `rex.cpp`): moves matured REX into the
never-maturing savings bucket; an uncovered request leaves the record
unchanged (the transaction aborts). -/
def mv_to_savings (R : Int) (b : rex_balance) : rex_balance :=
  if R ≤ b.matured_rex then
    { b with matured_rex := b.matured_rex - R
             rex_maturities := add_bucket b.rex_maturities rex_savings_day R }
  else b

/-- Modelled from the spec: `mvfrsavings` (`eosio.system.hpp` lines
615-620, body in the missing `rex.cpp`): moves REX out of the savings
bucket into a bucket with the regular 4-day maturity; an uncovered
request leaves the record unchanged (the transaction aborts). -/
def mv_from_savings (now : Nat) (R : Int) (b : rex_balance) : rex_balance :=
  if R ≤ savings_amount b then
    let rest := b.rex_maturities.filter (fun m => ! decide (m.1 = rex_savings_day))
    let ms := add_bucket (add_bucket rest rex_savings_day (savings_amount b - R))
      (get_rex_maturity now) R
    { b with rex_maturities := ms }
  else b

/-- Modelled from the spec: `consolidate_rex_balance` (declared in
`eosio.system.hpp` lines 962-963, body in the missing `rex.cpp`; action
doc at lines 599-604): folds `matured_rex` and every non-savings bucket
into a single bucket sellable 4 days from the end of today, keeping the
savings bucket. -/
def consolidate_rex_balance (now : Nat) (b : rex_balance) : rex_balance :=
  let sav := b.rex_maturities.filter (fun m => decide (m.1 = rex_savings_day))
  let rest := b.rex_maturities.filter (fun m => ! decide (m.1 = rex_savings_day))
  let total := b.matured_rex + (rest.map Prod.snd).sum
  { b with matured_rex := 0
           rex_maturities := add_bucket sav (get_rex_maturity now) total }

/-- The operations that touch a `rex_balance` record. -/
inductive balance_op where
  | add_rex (now : Nat) (R : Int)
  | process_maturities (now : Nat)
  | sell (S : Int)
  | move_to_savings (R : Int)
  | move_from_savings (now : Nat) (R : Int)
  | consolidate_all (now : Nat)
deriving DecidableEq, Repr

/-- One operation on a REX balance record. -/
def apply_balance_op (b : rex_balance) : balance_op → rex_balance
  | .add_rex now R => add_to_rex_balance now R b
  | .process_maturities now => process_rex_maturities now b
  | .sell S => sell_from_balance S b
  | .move_to_savings R => mv_to_savings R b
  | .move_from_savings now R => mv_from_savings now R b
  | .consolidate_all now => consolidate_rex_balance now b

/-- Step lemma for claim C6: every single balance operation preserves
`matured_rex + sum(rex_maturities.amount) == rex_balance.amount`. -/
theorem apply_balance_op_conserved (b : rex_balance) (op : balance_op)
    (h : rex_balance_conserved b) :
    rex_balance_conserved (apply_balance_op b op) := by
  cases op with
  | add_rex now R =>
      simp only [apply_balance_op, add_to_rex_balance, rex_balance_conserved] at h ⊢
      rw [add_bucket_sum]; omega
  | process_maturities now =>
      simp only [apply_balance_op, process_rex_maturities, rex_balance_conserved] at h ⊢
      have hsplit := maturity_sum_split now b.rex_maturities
      omega
  | sell S =>
      simp only [apply_balance_op, sell_from_balance]
      by_cases hs : S ≤ b.matured_rex
      · rw [if_pos hs]
        simp only [rex_balance_conserved] at h ⊢; omega
      · rw [if_neg hs]; exact h
  | move_to_savings R =>
      simp only [apply_balance_op, mv_to_savings]
      by_cases hs : R ≤ b.matured_rex
      · rw [if_pos hs]
        simp only [rex_balance_conserved] at h ⊢
        rw [add_bucket_sum]; omega
      · rw [if_neg hs]; exact h
  | move_from_savings now R =>
      simp only [apply_balance_op, mv_from_savings]
      by_cases hs : R ≤ savings_amount b
      · rw [if_pos hs]
        simp only [rex_balance_conserved] at h ⊢
        rw [add_bucket_sum, add_bucket_sum]
        have hsplit := savings_sum_split b.rex_maturities
        simp only [savings_amount] at hs ⊢
        omega
      · rw [if_neg hs]; exact h
  | consolidate_all now =>
      simp only [apply_balance_op, consolidate_rex_balance, rex_balance_conserved] at h ⊢
      rw [add_bucket_sum]
      have hsplit := savings_sum_split b.rex_maturities
      omega

/-- C6: for every REX balance record satisfying the bucket invariant and
after every sequence of operations that touch it (buying REX, lazy
maturity processing, selling, moves to and from savings, consolidation),
`matured_rex` plus the amounts in the `rex_maturities` buckets equals
`rex_balance.amount`. -/
theorem rex_balance_conservation (ops : List balance_op) (b : rex_balance)
    (h : rex_balance_conserved b) :
    rex_balance_conserved (List.foldl apply_balance_op b ops) := by
  induction ops generalizing b with
  | nil => exact h
  | cons op ops ih => exact ih _ (apply_balance_op_conserved b op h)

/-- Witness for C6 at a concrete record and operation sequence touching
every operation kind. -/
theorem rex_balance_conservation_witness :
    rex_balance_conserved (List.foldl apply_balance_op
      { owner := 1, vote_stake := 0, rex_balance := 100, matured_rex := 30
        rex_maturities := [(3 * seconds_per_day, 20), (rex_savings_day, 50)] }
      [balance_op.add_rex 0 40, balance_op.process_maturities (10 * seconds_per_day),
       balance_op.sell 10, balance_op.move_to_savings 5,
       balance_op.move_from_savings 0 55, balance_op.consolidate_all 0]) :=
  rex_balance_conservation _ _ (by decide)

/-! ## Vote-weight propagation -/

/-- `voter_info` from `eosio.system.hpp` lines 219-254, restricted to
the fields the propagator touches.  Account names are their `uint64_t`
values with `0` for the default-constructed empty name (no proxy set);
the `double` weights are modelled as exact rationals. -/
structure voter_info where
  owner : Nat
  proxy : Nat
  producers : List Nat
  staked : Int
  last_vote_weight : ℚ
  proxied_vote_weight : ℚ
  is_proxy : Bool
deriving DecidableEq, Repr

attribute [ext] voter_info

/-- The slice of shared vote state `propagate_weight_change` writes: the
voter's own record, the voter's proxy's `proxied_vote_weight`, and every
producer's `total_votes` (as a total map from producer names). -/
structure vote_state where
  voter : voter_info
  proxy_proxied_vote_weight : ℚ
  total_votes : Nat → ℚ

attribute [ext] vote_state

/-- Modelled from the spec: `propagate_weight_change` (declared in
`eosio.system.hpp` line 976, body in the missing `voting.cpp`).
`new_weight` is the recomputed weight of the voter's current stake
(`staked.amount * 2^(weeks_since_launch/weeks_per_year)`, hpp lines
225-230); the cached `last_vote_weight` is always subtracted before the
new weight is added: the delta goes to the proxy's
`proxied_vote_weight` when the voter delegates to a proxy, otherwise to
every producer in the voter's `producers` list; the cache then holds
`new_weight` (spec §4.5). -/
def propagate_weight_change (new_weight : ℚ) (s : vote_state) : vote_state :=
  let delta := new_weight - s.voter.last_vote_weight
  let voter' := { s.voter with last_vote_weight := new_weight }
  if s.voter.proxy = 0 then
    let tv := fun prod =>
      if prod ∈ s.voter.producers then s.total_votes prod + delta else s.total_votes prod
    { s with total_votes := tv
             voter := voter' }
  else
    { s with proxy_proxied_vote_weight := s.proxy_proxied_vote_weight + delta
             voter := voter' }

/-- C7: the vote-weight propagator is idempotent: invoking it twice with
the same recomputed weight (same underlying stake, no intervening stake
change) leaves every producer's `total_votes`, the proxy's
`proxied_vote_weight` and the voter's record exactly as invoking it
once, because the cached `last_vote_weight` is subtracted before the new
weight is added. -/
theorem propagate_weight_change_idempotent (new_weight : ℚ) (s : vote_state) :
    propagate_weight_change new_weight (propagate_weight_change new_weight s) =
      propagate_weight_change new_weight s := by
  by_cases hp : s.voter.proxy = 0 <;>
    ext <;> simp [propagate_weight_change, hp]

/-! ## `buyrex` and its voting requirement -/

/-- What the voting-requirement check reads about the caller: how many
producers they vote for and whether they delegate to a proxy. -/
structure voting_status where
  producers_voted : Nat
  has_proxy : Bool
deriving DecidableEq, Repr

/-- Modelled from the spec: `check_voting_requirement` (declared in
`eosio.system.hpp` lines 941-942 with its error message "must vote for
at least 21 producers or for a proxy before buying REX", body in the
missing `rex.cpp`). -/
def voting_requirement_met (v : voting_status) : Bool :=
  decide (21 ≤ v.producers_voted) || v.has_proxy

/-- Modelled from the spec: `buyrex` (declared in `eosio.system.hpp`
lines 524-530, body in the missing `rex.cpp`).  The voting requirement
must be satisfied before the action can execute (PreconditionFailed,
spec §7); the amount must be positive (InvalidAmount) and covered by the
owner's REX fund (InsufficientBalance); on success the amount moves from
the fund into the pool, minting shares.  Returns the new fund balance,
the new pool and the minted shares. -/
def buyrex (v : voting_status) (fund : Int) (p : rex_pool) (amount : Int) :
    Except rex_error (Int × rex_pool × Int) :=
  if ¬ voting_requirement_met v then .error .precondition_failed
  else if amount ≤ 0 then .error .invalid_amount
  else if fund < amount then .error .insufficient_balance
  else
    let r := add_to_rex_pool p amount
    .ok (fund - amount, r.1, r.2)

/-- C8: `buyrex` fails with the PreconditionFailed error whenever the
caller has not satisfied the voting requirement (voting for at least 21
producers or for a proxy), and it succeeds — converting fund tokens to
REX at the pool price — only when that precondition holds. -/
theorem buyrex_voting_requirement (v : voting_status) (fund : Int)
    (p : rex_pool) (amount : Int) :
    (voting_requirement_met v = false →
       buyrex v fund p amount = Except.error rex_error.precondition_failed) ∧
    (∀ res, buyrex v fund p amount = Except.ok res →
       voting_requirement_met v = true ∧
       res = (fund - amount, (add_to_rex_pool p amount).1, (add_to_rex_pool p amount).2)) := by
  constructor
  · intro hmet
    simp [buyrex, hmet]
  · intro res hok
    by_cases hmet : voting_requirement_met v
    · refine ⟨hmet, ?_⟩
      simp only [buyrex, hmet, not_true, if_false, reduceIte] at hok
      by_cases h1 : amount ≤ 0
      · simp [h1] at hok
      · by_cases h2 : fund < amount
        · simp [h1, h2] at hok
        · simp [h1, h2] at hok
          exact hok.symm
    · simp only [Bool.not_eq_true] at hmet
      simp [buyrex, hmet] at hok

/-- Witness for C8: a caller voting for 5 producers and no proxy is
rejected with PreconditionFailed; one voting for 21 producers satisfies
the requirement and the purchase succeeds. -/
theorem buyrex_voting_requirement_witness :
    buyrex ⟨5, false⟩ 100 pool0 40 = Except.error rex_error.precondition_failed ∧
    voting_requirement_met ⟨21, false⟩ = true :=
  ⟨(buyrex_voting_requirement ⟨5, false⟩ 100 pool0 40).1 (by decide),
   ((buyrex_voting_requirement ⟨21, false⟩ 100 pool0 40).2
      (100 - 40, (add_to_rex_pool pool0 40).1, (add_to_rex_pool pool0 40).2)
      (by rfl)).1⟩

end EosioSystem
